import Mathlib

/-!
Verification of the MayaAPIUtils adapter library (scottenglert/MayaAPIUtils).

The repository wraps Autodesk Maya's array container types (the host SDK's
`M***Array` classes) in a standard-library-style interface:

* `maya_iteration/maya_array_range.h` — `MayaArrayRange<T>` and its nested
  `MayaArrayIter<C,V,R>`: a random-access iterator that stores a reference to
  the host container and an `unsigned int` index, and forwards every access
  through `operator[]`/`length()` of the host container.
* `maya_array/maya_array.h` — `MayaArray<T>`: a vector-like facade over a host
  array, delegating to the host operations `operator[]`, `length()`,
  `append`, `insert(value, index)`, `remove(index)`, `setLength(count)` and
  `clear()`.
* `maya_templates/maya_stl.h` — `std::hash<MString>` / `std::equal_to<MString>`
  forwarding shims.

Embedding choices:

* A host array is a `List α`.  The host SDK itself is outside the repository;
  its operations are modelled from the spec's statement of the observable
  contract (`operator[](index) -> element reference`, `length() -> count`,
  `insert(value, index)`, `remove(index)`, `setLength(count)`), each in a
  `host*` definition below.
* An iterator is a pair of a container identity (`cid`, the address the C++
  reference member `C& c` is bound to) and an index `i`, which in C++ has type
  `unsigned int`.  Index arithmetic is therefore modelled modulo `2^32`
  (`4294967296`), and `difference_type` is `int`, so an iterator difference is
  the unsigned 32-bit difference converted to a signed 32-bit value.
* Out-of-range host reads (`c[i]` with `i >= length`) are undefined behaviour
  in C++; the model returns a junk value `dflt` supplied explicitly.
* Loops in the source (`while (count--)`, `for (; first != last; ++first)`,
  `for (i = oldSize; i < count; ++i)`) become structural recursions; the
  erase loop keeps the source's `first != last` guard, bounded by the
  iteration count a valid range produces.
-/

/-- Unsigned 32-bit addition of a C++ `unsigned int` index and an `int`
offset, as in `i + n` / `i += n`: the offset is converted to `unsigned int`
and the sum wraps modulo `2^32`. -/
def uadd (i : Nat) (n : Int) : Nat :=
  (((i : Int) + n) % 4294967296).toNat

/-- Unsigned 32-bit subtraction of an `int` offset from a C++ `unsigned int`
index, as in `i - n` / `i -= n`, wrapping modulo `2^32`. -/
def usub (i : Nat) (n : Int) : Nat :=
  (((i : Int) - n) % 4294967296).toNat

/-- Conversion of an unsigned 32-bit value to a C++ `int`
(two's-complement). -/
def toCppInt (u : Nat) : Int :=
  if u < 2147483648 then (u : Int) else (u : Int) - 4294967296

/-- Difference of two `unsigned int` indices returned as `difference_type`
(`int`), as in `return i - other.i;`: unsigned wrap-around subtraction, the
result then converted to `int`. -/
def udiffInt (i j : Nat) : Int :=
  toCppInt ((((i : Int) - (j : Int)) % 4294967296).toNat)

/-- Conversion of an `int` to a C++ `unsigned int` (wraps modulo `2^32`), as
in `size_type i = pos - begin();`. -/
def intToUInt (n : Int) : Nat :=
  (n % 4294967296).toNat

/-- Modelled from the spec: the host array's `length() -> count` query. -/
def hostLength {α : Type} (c : List α) : Nat :=
  c.length

/-- Modelled from the spec: reading through the host array's
`operator[](index) -> element reference`.  An out-of-range read is undefined
behaviour in the host; the model returns the junk value `dflt`. -/
def hostGet {α : Type} (c : List α) (dflt : α) (i : Nat) : α :=
  c.getD i dflt

/-- Modelled from the spec: writing through the host array's
`operator[](index) -> element reference` (an out-of-range write is a no-op
stand-in for host undefined behaviour). -/
def hostSet {α : Type} (c : List α) (i : Nat) (v : α) : List α :=
  c.set i v

/-- Modelled from the spec: the host array's `insert(value, index)`, which
places `value` at `index` and shifts the elements from `index` on up by
one. -/
def hostInsert {α : Type} (c : List α) (v : α) (i : Nat) : List α :=
  c.insertIdx i v

/-- Modelled from the spec: the host array's `remove(index)`, which removes
the element at `index` and shifts the elements above it down by one. -/
def hostRemove {α : Type} (c : List α) (i : Nat) : List α :=
  c.eraseIdx i

/-- Modelled from the spec: the host array's `setLength(count)`.  Shrinking
keeps the first `count` elements; growing appends uninitialized storage,
modelled as copies of the junk value `dflt`. -/
def hostSetLength {α : Type} (c : List α) (dflt : α) (n : Nat) : List α :=
  if n ≤ c.length then c.take n else c ++ List.replicate (n - c.length) dflt

/-- MayaArrayIter (maya_array_range.h): the iterator state, a reference to
the host container (represented by the address `cid` it is bound to) and the
`unsigned int` index `i`. -/
structure MayaArrayIter where
  cid : Nat
  i : Nat
deriving DecidableEq, Repr

/-- MayaArrayIter::operator* — `return c[i];` (the value read through the
host reference; `dflt` is the junk value for the undefined out-of-range
case). -/
def iterDeref {α : Type} (c : List α) (dflt : α) (it : MayaArrayIter) : α :=
  hostGet c dflt it.i

/-- MayaArrayIter::operator-> — `return &c[i];`, the same host element as
`operator*`. -/
def iterArrow {α : Type} (c : List α) (dflt : α) (it : MayaArrayIter) : α :=
  hostGet c dflt it.i

/-- Assignment through the reference returned by `operator*`: writing `v`
into `c[i]` of the host container. -/
def iterStore {α : Type} (c : List α) (it : MayaArrayIter) (v : α) : List α :=
  hostSet c it.i v

/-- MayaArrayIter::operator[] — `return c[i + n];`. -/
def iterIdx {α : Type} (c : List α) (dflt : α) (it : MayaArrayIter) (n : Int) : α :=
  hostGet c dflt (uadd it.i n)

/-- MayaArrayIter::operator++ (pre-increment) — `++i; return *this;`. -/
def iterPreInc (it : MayaArrayIter) : MayaArrayIter :=
  ⟨it.cid, uadd it.i 1⟩

/-- MayaArrayIter::operator-- (pre-decrement) — `--i; return *this;`. -/
def iterPreDec (it : MayaArrayIter) : MayaArrayIter :=
  ⟨it.cid, usub it.i 1⟩

/-- MayaArrayIter::operator++(int) (post-increment) —
`return MayaArrayIter(c, i++);`: the pair of the returned iterator (old
index) and the operand afterwards (index incremented). -/
def iterPostInc (it : MayaArrayIter) : MayaArrayIter × MayaArrayIter :=
  (⟨it.cid, it.i⟩, ⟨it.cid, uadd it.i 1⟩)

/-- MayaArrayIter::operator+(difference_type) —
`return MayaArrayIter(c, (i + n));`. -/
def iterAdd (it : MayaArrayIter) (n : Int) : MayaArrayIter :=
  ⟨it.cid, uadd it.i n⟩

/-- MayaArrayIter::operator+=(difference_type) — `i += n; return *this;`. -/
def iterAddAssign (it : MayaArrayIter) (n : Int) : MayaArrayIter :=
  ⟨it.cid, uadd it.i n⟩

/-- MayaArrayIter::operator-(difference_type) —
`return MayaArrayIter(c, (i - n));`. -/
def iterSub (it : MayaArrayIter) (n : Int) : MayaArrayIter :=
  ⟨it.cid, usub it.i n⟩

/-- MayaArrayIter::operator-=(difference_type) — `i -= n; return *this;`. -/
def iterSubAssign (it : MayaArrayIter) (n : Int) : MayaArrayIter :=
  ⟨it.cid, usub it.i n⟩

/-- MayaArrayIter::operator== —
`return (i == other.i && &c == &other.c);`. -/
def iterEq (a b : MayaArrayIter) : Bool :=
  a.i == b.i && a.cid == b.cid

/-- MayaArrayIter::operator!= — `return !(*this == other);`. -/
def iterNe (a b : MayaArrayIter) : Bool :=
  !(iterEq a b)

/-- MayaArrayIter::operator< —
`return (i < other.i && &c == &other.c);`. -/
def iterLt (a b : MayaArrayIter) : Bool :=
  decide (a.i < b.i) && a.cid == b.cid

/-- MayaArrayIter::operator> —
`return !(*this < other || *this == other);`. -/
def iterGt (a b : MayaArrayIter) : Bool :=
  !(iterLt a b || iterEq a b)

/-- MayaArrayIter::operator<= — `return !(*this > other);`. -/
def iterLe (a b : MayaArrayIter) : Bool :=
  !(iterGt a b)

/-- MayaArrayIter::operator>= — `return !(*this < other);`. -/
def iterGe (a b : MayaArrayIter) : Bool :=
  !(iterLt a b)

/-- MayaArrayIter::operator-(const MayaArrayIter&) —
`return i - other.i;` (unsigned subtraction, converted to
`difference_type` = `int`). -/
def iterDiff (a b : MayaArrayIter) : Int :=
  udiffInt a.i b.i

/-- MayaArrayRange::begin — `return iterator(mArray);`, index 0 over the
container at address `cid`. -/
def rangeBegin (cid : Nat) : MayaArrayIter :=
  ⟨cid, 0⟩

/-- MayaArrayRange::end — `return iterator(mArray, mArray.length());`. -/
def rangeEnd {α : Type} (c : List α) (cid : Nat) : MayaArrayIter :=
  ⟨cid, hostLength c⟩

/-- MayaArray (maya_array.h): the facade owning the host array `mArray`
(whose address, used for iterator identity, is `cid`). -/
structure MayaArray (α : Type) where
  cid : Nat
  mArray : List α
deriving DecidableEq, Repr

/-- MayaArray::size — `return mArray.length();`. -/
def MayaArray.size {α : Type} (a : MayaArray α) : Nat :=
  hostLength a.mArray

/-- MayaArray::begin — `return iterator(mArray);`. -/
def MayaArray.beginIt {α : Type} (a : MayaArray α) : MayaArrayIter :=
  ⟨a.cid, 0⟩

/-- MayaArray::end — `return iterator(mArray, mArray.length());`. -/
def MayaArray.endIt {α : Type} (a : MayaArray α) : MayaArrayIter :=
  ⟨a.cid, hostLength a.mArray⟩

/-- Index extraction `size_type i = pos - begin();` shared by the insert and
erase member functions: the iterator difference (an `int`) converted back to
`unsigned int`. -/
def idxOf (pos beginIter : MayaArrayIter) : Nat :=
  intToUInt (iterDiff pos beginIter)

/-- MayaArray::at — `if (mArray.length() <= pos) throw std::out_of_range(...);
return mArray[pos];`, as the pair of the outcome and the (unmodified) array
state after the call.  The C++ name `at` is a reserved word in Lean. -/
def MayaArray.atPos {α : Type} (a : MayaArray α) (dflt : α) (pos : Nat) :
    Except String α × MayaArray α :=
  (if hostLength a.mArray ≤ pos then Except.error "MayaArray out of bounds"
   else Except.ok (hostGet a.mArray dflt pos), a)

/-- Loop body of MayaArray::insert(pos, count, value) —
`while (count--) mArray.insert(value, i);`: `count` host insertions at the
fixed index `i`. -/
def insertLoop {α : Type} (c : List α) (v : α) (i : Nat) : Nat → List α
  | 0 => c
  | n + 1 => insertLoop (hostInsert c v i) v i n

/-- MayaArray::insert(pos, value) — `size_type i = pos - begin();
mArray.insert(value, i); return iterator(mArray, i);`, as the pair of the new
array state and the returned iterator. -/
def MayaArray.insertOne {α : Type} (a : MayaArray α) (pos : MayaArrayIter) (v : α) :
    MayaArray α × MayaArrayIter :=
  let i := idxOf pos a.beginIt
  (⟨a.cid, hostInsert a.mArray v i⟩, ⟨a.cid, i⟩)

/-- MayaArray::insert(pos, count, value) — `size_type i = pos - begin();
while (count--) mArray.insert(value, i); return iterator(mArray, i);`. -/
def MayaArray.insertCnt {α : Type} (a : MayaArray α) (pos : MayaArrayIter)
    (count : Nat) (v : α) : MayaArray α × MayaArrayIter :=
  let i := idxOf pos a.beginIt
  (⟨a.cid, insertLoop a.mArray v i count⟩, ⟨a.cid, i⟩)

/-- Loop of MayaArray::erase(first, last) —
`for (; first != last; ++first) mArray.remove(i);` with the source's
`first != last` guard (via `operator!=`) and `++first` step, run for at most
`fuel` iterations; a valid range `[first, last)` over one container is
exhausted in exactly `last.i - first.i` iterations. -/
def eraseLoopIter {α : Type} (c : List α) (i : Nat) (first last : MayaArrayIter) :
    Nat → List α
  | 0 => c
  | fuel + 1 =>
    if iterNe first last then
      eraseLoopIter (hostRemove c i) i (iterPreInc first) last fuel
    else c

/-- Pure form of the erase loop: `n` host removals at the fixed index `i`. -/
def eraseLoop {α : Type} (c : List α) (i : Nat) : Nat → List α
  | 0 => c
  | n + 1 => eraseLoop (hostRemove c i) i n

/-- MayaArray::erase(pos) — `size_type i = pos - begin(); mArray.remove(i);
return iterator(mArray, i);`. -/
def MayaArray.eraseOne {α : Type} (a : MayaArray α) (pos : MayaArrayIter) :
    MayaArray α × MayaArrayIter :=
  let i := idxOf pos a.beginIt
  (⟨a.cid, hostRemove a.mArray i⟩, ⟨a.cid, i⟩)

/-- MayaArray::erase(first, last) — `size_type i = first - begin();
for (; first != last; ++first) mArray.remove(i); return iterator(mArray, i);`. -/
def MayaArray.eraseRange {α : Type} (a : MayaArray α) (first last : MayaArrayIter) :
    MayaArray α × MayaArrayIter :=
  let i := idxOf first a.beginIt
  (⟨a.cid, eraseLoopIter a.mArray i first last (last.i - first.i)⟩, ⟨a.cid, i⟩)

/-- MayaArray::resize(count) — `mArray.setLength(count);`. -/
def MayaArray.resizeCnt {α : Type} (a : MayaArray α) (dflt : α) (count : Nat) :
    MayaArray α :=
  ⟨a.cid, hostSetLength a.mArray dflt count⟩

/-- Fill loop of MayaArray::resize(count, value) —
`for (size_type i = oldSize; i < count; ++i) mArray[i] = value;`, which runs
`count - i` iterations, each writing `v` at the next index. -/
def fillLoop {α : Type} (c : List α) (v : α) (i : Nat) : Nat → List α
  | 0 => c
  | n + 1 => fillLoop (hostSet c i v) v (i + 1) n

/-- MayaArray::resize(count, value) — shrink via `setLength`, grow via
`setLength` followed by the fill loop over the new slots, and do nothing when
`count == size()`. -/
def MayaArray.resizeFill {α : Type} (a : MayaArray α) (dflt : α) (count : Nat)
    (v : α) : MayaArray α :=
  let oldSize := a.size
  if count < oldSize then
    ⟨a.cid, hostSetLength a.mArray dflt count⟩
  else if oldSize < count then
    ⟨a.cid, fillLoop (hostSetLength a.mArray dflt count) v oldSize (count - oldSize)⟩
  else a

/-- MayaArray::operator=(const T&) — the body is `mArray = other;` with no
return statement, although the function is declared to return `MayaArray&`:
the result is the new state paired with the returned reference, which is
`none` because control flows off the end of the function. -/
def MayaArray.assignFromHost {α : Type} (a : MayaArray α) (other : List α) :
    MayaArray α × Option Unit :=
  (⟨a.cid, other⟩, none)

/-- MayaArray::operator=(const MayaArray&) — the body is
`mArray = other.mArray;` with no return statement, although the function is
declared to return `MayaArray&`: the result is the new state paired with the
returned reference, which is `none` because control flows off the end of the
function. -/
def MayaArray.assignFromMaya {α : Type} (a b : MayaArray α) :
    MayaArray α × Option Unit :=
  (⟨a.cid, b.mArray⟩, none)

/-- Modelled from the spec: the variant of `std::hash<MString>::operator()`
in maya_stl.h, `MUniqueString uniqueString = MUniqueString::intern(value);
return uniqueString.hash();`, with the opaque host types and functions
(`MString`, `MUniqueString`, `intern`, `hash`) as parameters. -/
def hashMString {σ υ : Type} (intern : σ → υ) (uhash : υ → Nat) (v : σ) : Nat :=
  uhash (intern v)

/-- Modelled from the spec: `std::equal_to<MString>::operator()` in
maya_stl.h, `return valueA == valueB;`, with the opaque host comparison as
the parameter `meq`. -/
def equalToMString {σ : Type} (meq : σ → σ → Bool) (a b : σ) : Bool :=
  meq a b

/-- Unsigned index recovery: for any in-range `unsigned int` index, the
`pos - begin()` round trip through `int` and back to `unsigned int` returns
the index itself. -/
theorem idxOf_eq (pos b : MayaArrayIter) (hb : b.i = 0) (h : pos.i < 4294967296) :
    idxOf pos b = pos.i := by
  simp only [idxOf, iterDiff, udiffInt, toCppInt, intToUInt, hb]
  split <;> omega

/-- Element view of a single host insertion at `n ≤ l.length`: indices below
`n` are unchanged, index `n` holds the new value, higher indices shift up by
one. -/
theorem getElem?_insertIdx_spec {α : Type} (x : α) :
    ∀ (n : Nat) (l : List α), n ≤ l.length → ∀ j : Nat,
      (l.insertIdx n x)[j]? =
        if j < n then l[j]? else if j = n then some x else l[j - 1]? := by
  intro n
  induction n with
  | zero =>
    intro l _ j
    cases j <;> simp [List.insertIdx_zero]
  | succ m ih =>
    intro l hl j
    cases l with
    | nil => simp at hl
    | cons a t =>
      rw [List.insertIdx_succ_cons]
      cases j with
      | zero => simp
      | succ k =>
        simp only [List.getElem?_cons_succ]
        rw [ih t (by simpa using hl) k]
        rcases Nat.lt_trichotomy k m with hk | hk | hk
        · rw [if_pos hk, if_pos (by omega)]
        · subst hk
          rw [if_neg (by omega), if_pos rfl, if_neg (by omega), if_pos (by omega)]
        · rw [if_neg (by omega), if_neg (by omega), if_neg (by omega),
            if_neg (by omega)]
          obtain ⟨k0, rfl⟩ : ∃ k0, k = k0 + 1 := ⟨k - 1, by omega⟩
          simp [Nat.add_sub_cancel]

/-- Length after the insert loop: `n` insertions at a valid index add `n`
elements. -/
theorem insertLoop_length {α : Type} (v : α) :
    ∀ (n : Nat) (l : List α) (i : Nat), i ≤ l.length →
      (insertLoop l v i n).length = l.length + n := by
  intro n
  induction n with
  | zero => intro l i _; rfl
  | succ m ih =>
    intro l i h
    show (insertLoop (hostInsert l v i) v i m).length = l.length + (m + 1)
    rw [ih (hostInsert l v i) i
      (by simp [hostInsert, List.length_insertIdx _ _ h]; omega)]
    simp [hostInsert, List.length_insertIdx _ _ h]
    omega

/-- Element view after the insert loop: indices below `i` unchanged, the `n`
slots `i ≤ j < i + n` hold the inserted value, higher slots are the old
elements shifted up by `n`. -/
theorem insertLoop_getElem? {α : Type} (v : α) :
    ∀ (n : Nat) (l : List α) (i : Nat), i ≤ l.length → ∀ j : Nat,
      (insertLoop l v i n)[j]? =
        if j < i then l[j]? else if j < i + n then some v else l[j - n]? := by
  intro n
  induction n with
  | zero =>
    intro l i _ j
    by_cases hj : j < i <;> simp [insertLoop, hj]
  | succ m ih =>
    intro l i h j
    show (insertLoop (hostInsert l v i) v i m)[j]? = _
    have hlen : i ≤ (hostInsert l v i).length := by
      simp [hostInsert, List.length_insertIdx _ _ h]; omega
    rw [ih (hostInsert l v i) i hlen j]
    have hins := getElem?_insertIdx_spec v i l h
    by_cases h1 : j < i
    · rw [if_pos h1, if_pos h1]
      simpa [hostInsert, if_pos h1] using hins j
    · rw [if_neg h1, if_neg h1]
      by_cases h2 : j < i + m
      · rw [if_pos h2, if_pos (show j < i + (m + 1) by omega)]
      · rw [if_neg h2]
        by_cases h3 : j = i + m
        · rw [if_pos (show j < i + (m + 1) by omega)]
          have := hins (j - m)
          rw [if_neg (show ¬j - m < i by omega),
            if_pos (show j - m = i by omega)] at this
          simpa [hostInsert] using this
        · rw [if_neg (show ¬j < i + (m + 1) by omega)]
          have := hins (j - m)
          rw [if_neg (show ¬j - m < i by omega),
            if_neg (show ¬j - m = i by omega)] at this
          simp only [hostInsert] at this ⊢
          rw [show j - m - 1 = j - (m + 1) from by omega] at this
          exact this

/-- Length after the erase loop: `n` removals at an index that stays in
range remove exactly `n` elements. -/
theorem eraseLoop_length {α : Type} :
    ∀ (n : Nat) (l : List α) (i : Nat), i + n ≤ l.length →
      (eraseLoop l i n).length = l.length - n := by
  intro n
  induction n with
  | zero => intro l i _; simp [eraseLoop]
  | succ m ih =>
    intro l i h
    show (eraseLoop (hostRemove l i) i m).length = _
    have hlen : (hostRemove l i).length = l.length - 1 := by
      simp [hostRemove, List.length_eraseIdx]
      omega
    rw [ih (hostRemove l i) i (by omega), hlen]
    omega

/-- Element view after the erase loop: indices below `i` unchanged, from `i`
on the elements `n` further up take their place. -/
theorem eraseLoop_getElem? {α : Type} :
    ∀ (n : Nat) (l : List α) (i : Nat), i + n ≤ l.length → ∀ j : Nat,
      (eraseLoop l i n)[j]? = if j < i then l[j]? else l[j + n]? := by
  intro n
  induction n with
  | zero =>
    intro l i _ j
    by_cases hj : j < i <;> simp [eraseLoop, hj]
  | succ m ih =>
    intro l i h j
    show (eraseLoop (hostRemove l i) i m)[j]? = _
    have hlen : (hostRemove l i).length = l.length - 1 := by
      simp [hostRemove, List.length_eraseIdx]
      omega
    rw [ih (hostRemove l i) i (by omega) j]
    by_cases h1 : j < i
    · rw [if_pos h1, if_pos h1]
      simp [hostRemove, List.getElem?_eraseIdx, h1]
    · rw [if_neg h1, if_neg h1]
      simp only [hostRemove, List.getElem?_eraseIdx,
        if_neg (show ¬j + m < i by omega)]
      rw [show j + m + 1 = j + (m + 1) from by omega]

/-- The source's guarded erase loop, run with fuel equal to the length of a
valid iterator range, performs exactly that many removals. -/
theorem eraseLoopIter_eq_eraseLoop {α : Type} :
    ∀ (n : Nat) (l : List α) (i : Nat) (first last : MayaArrayIter),
      first.cid = last.cid → first.i + n = last.i → last.i < 4294967296 →
      eraseLoopIter l i first last n = eraseLoop l i n := by
  intro n
  induction n with
  | zero => intro l i first last _ _ _; rfl
  | succ m ih =>
    intro l i first last hc hn hlt
    show (if iterNe first last then
        eraseLoopIter (hostRemove l i) i (iterPreInc first) last m
      else l) = _
    rw [if_pos (by
      simp [iterNe, iterEq]
      omega)]
    show eraseLoopIter (hostRemove l i) i (iterPreInc first) last m =
      eraseLoop (hostRemove l i) i m
    exact ih (hostRemove l i) i (iterPreInc first) last hc
      (by simp [iterPreInc, uadd]; omega) hlt

/-- Length is preserved by the fill loop (all writes are in range). -/
theorem fillLoop_length {α : Type} (v : α) :
    ∀ (n : Nat) (l : List α) (i : Nat), (fillLoop l v i n).length = l.length := by
  intro n
  induction n with
  | zero => intro l i; rfl
  | succ m ih =>
    intro l i
    show (fillLoop (hostSet l i v) v (i + 1) m).length = _
    rw [ih (hostSet l i v) (i + 1)]
    simp [hostSet]

/-- Element view after the fill loop over in-range slots: the slots
`i ≤ j < i + n` hold the written value, all others are unchanged. -/
theorem fillLoop_getElem? {α : Type} (v : α) :
    ∀ (n : Nat) (l : List α) (i : Nat), i + n ≤ l.length → ∀ j : Nat,
      (fillLoop l v i n)[j]? =
        if i ≤ j ∧ j < i + n then some v else l[j]? := by
  intro n
  induction n with
  | zero =>
    intro l i _ j
    rw [if_neg (by omega)]
    rfl
  | succ m ih =>
    intro l i h j
    show (fillLoop (hostSet l i v) v (i + 1) m)[j]? = _
    rw [ih (hostSet l i v) (i + 1) (by simp [hostSet]; omega) j]
    by_cases h1 : j = i
    · subst h1
      rw [if_neg (by omega), if_pos (by omega)]
      simp [hostSet, List.getElem?_set]
      omega
    · by_cases h2 : i + 1 ≤ j ∧ j < i + 1 + m
      · rw [if_pos h2, if_pos (by omega)]
      · rw [if_neg h2, if_neg (by omega)]
        simp only [hostSet, List.getElem?_set,
          if_neg (show ¬i = j from fun hh => h1 hh.symm)]

/-- Length after the host `setLength(count)`: always `count`. -/
theorem hostSetLength_length {α : Type} (l : List α) (dflt : α) (n : Nat) :
    (hostSetLength l dflt n).length = n := by
  unfold hostSetLength
  split
  · simp
    omega
  · simp
    omega

/-- Element view after the host `setLength(count)`: the surviving prefix is
unchanged, new slots hold the junk value, everything past `count` is gone. -/
theorem hostSetLength_getElem? {α : Type} (l : List α) (dflt : α) (n : Nat)
    (j : Nat) :
    (hostSetLength l dflt n)[j]? =
      if j < min n l.length then l[j]? else if j < n then some dflt else none := by
  unfold hostSetLength
  split
  · rename_i hn
    rw [List.getElem?_take]
    by_cases h1 : j < n
    · rw [if_pos h1, if_pos (by omega)]
    · rw [if_neg h1, if_neg (by omega), if_neg h1]
  · rename_i hn
    rw [List.getElem?_append]
    by_cases h1 : j < l.length
    · rw [if_pos h1, if_pos (by omega)]
    · rw [if_neg h1, if_neg (by omega), List.getElem?_replicate]
      by_cases h2 : j < n
      · rw [if_pos (by omega), if_pos h2]
      · rw [if_neg (by omega), if_neg h2]

/-- C1: dereferencing the adapter iterator at an in-range index `i`
(`operator*`, and `operator->` and `operator[]`, which read the same host
element) yields the host array's element at index `i`, and an assignment
through the iterator changes exactly element `i` of the host array, leaving
every other element and the length unchanged. -/
theorem iter_deref_store_spec {α : Type} (l : List α) (dflt v : α)
    (it : MayaArrayIter) (h : it.i < l.length) :
    some (iterDeref l dflt it) = l[it.i]? ∧
    iterArrow l dflt it = iterDeref l dflt it ∧
    (∀ n : Int, iterIdx l dflt it n = iterDeref l dflt (iterAdd it n)) ∧
    (iterStore l it v).length = l.length ∧
    (iterStore l it v)[it.i]? = some v ∧
    ∀ j : Nat, j ≠ it.i → (iterStore l it v)[j]? = l[j]? := by
  refine ⟨?_, rfl, fun n => rfl, ?_, ?_, ?_⟩
  · simp [iterDeref, hostGet, List.getD_eq_getElem?_getD,
      List.getElem?_eq_getElem h]
  · simp [iterStore, hostSet]
  · simp [iterStore, hostSet, List.getElem?_set, h]
  · intro j hj
    simp [iterStore, hostSet, List.getElem?_set,
      if_neg (show ¬it.i = j from fun hh => hj hh.symm)]

/-- Witness for C1 at a concrete array: storing 99 through an iterator at
index 1 of `[10, 20, 30]` puts 99 at index 1. -/
theorem iter_deref_store_spec_witness :
    (iterStore [10, 20, 30] ⟨0, 1⟩ 99)[1]? = some 99 :=
  (iter_deref_store_spec [10, 20, 30] 0 99 ⟨0, 1⟩ (by decide)).2.2.2.2.1

/-- C2: for both the range adapter and the MayaArray facade,
`end() - begin()` equals the host `length()` (as a `difference_type` value,
for lengths representable in `int`), and `begin() == end()` exactly when the
length is 0. -/
theorem range_distance_spec {α : Type} (l : List α) (cid : Nat)
    (a : MayaArray α) (h : l.length < 2147483648) (ha : a.size < 2147483648) :
    iterDiff (rangeEnd l cid) (rangeBegin cid) = (l.length : Int) ∧
    (iterEq (rangeBegin cid) (rangeEnd l cid) = true ↔ l.length = 0) ∧
    iterDiff a.endIt a.beginIt = (a.size : Int) ∧
    (iterEq a.beginIt a.endIt = true ↔ a.size = 0) := by
  refine ⟨?_, ?_, ?_, ?_⟩
  · simp only [iterDiff, rangeEnd, rangeBegin, udiffInt, toCppInt, hostLength]
    split <;> omega
  · constructor
    · intro hh
      simp [iterEq, rangeBegin, rangeEnd, hostLength] at hh
      omega
    · intro hh
      simp [iterEq, rangeBegin, rangeEnd, hostLength, hh]
  · simp only [MayaArray.size, hostLength] at ha
    simp only [iterDiff, MayaArray.endIt, MayaArray.beginIt, udiffInt,
      toCppInt, hostLength, MayaArray.size]
    split <;> omega
  · simp only [MayaArray.size, hostLength] at ha ⊢
    constructor
    · intro hh
      simp [iterEq, MayaArray.beginIt, MayaArray.endIt, hostLength] at hh
      omega
    · intro hh
      simp [iterEq, MayaArray.beginIt, MayaArray.endIt, hostLength, hh]

/-- Witness for C2 at a concrete array of length 3. -/
theorem range_distance_spec_witness :
    iterDiff (rangeEnd [4, 5, 6] 7) (rangeBegin 7) = (3 : Int) :=
  (range_distance_spec [4, 5, 6] 7 (⟨7, [4, 5, 6]⟩ : MayaArray Nat)
    (by decide) (by decide)).1

/-- C7: iterator offset, compound assignment, increment and decrement are
pure index arithmetic against the same container: `it + n` keeps the
container and moves the index to `i + n` (within unsigned range),
`(it + n) - it = n` (within `int` range), `+=`/`-=` agree with `+`/`-`,
pre-increment then pre-decrement restores the iterator, and post-increment
returns the original position while advancing the operand to `i + 1`. -/
theorem iter_arith_spec (it : MayaArrayIter) (n : Int)
    (h1 : 0 ≤ (it.i : Int) + n) (h2 : (it.i : Int) + n < 4294967296)
    (h3 : -2147483648 ≤ n) (h4 : n < 2147483648)
    (h5 : it.i + 1 < 4294967296) :
    (iterAdd it n).cid = it.cid ∧
    ((iterAdd it n).i : Int) = (it.i : Int) + n ∧
    iterDiff (iterAdd it n) it = n ∧
    iterAddAssign it n = iterAdd it n ∧
    iterSubAssign it n = iterSub it n ∧
    iterPreDec (iterPreInc it) = it ∧
    (iterPostInc it).1 = it ∧
    (iterPostInc it).2.cid = it.cid ∧
    (iterPostInc it).2.i = it.i + 1 := by
  obtain ⟨cid, i⟩ := it
  simp only at h1 h2 h5
  refine ⟨rfl, ?_, ?_, rfl, rfl, ?_, rfl, rfl, ?_⟩
  · simp only [iterAdd, uadd]
    omega
  · simp only [iterDiff, iterAdd, udiffInt, toCppInt, uadd]
    split <;> omega
  · simp only [iterPreDec, iterPreInc, usub, uadd, MayaArrayIter.mk.injEq,
      true_and]
    omega
  · simp only [iterPostInc, uadd]
    omega

/-- Witness for C7 at a concrete iterator (index 5) and offset 3. -/
theorem iter_arith_spec_witness :
    iterDiff (iterAdd ⟨2, 5⟩ 3) ⟨2, 5⟩ = 3 :=
  (iter_arith_spec ⟨2, 5⟩ 3 (by decide) (by decide) (by decide) (by decide)
    (by decide)).2.2.1

/-- C8: over one container, `==` is index equality, `<` and `>` are the
index order, `<=` and `>=` are the source's negations of `>` and `<`, and
exactly one of `<`, `==`, `>` holds. -/
theorem iter_order_spec (a b : MayaArrayIter) (hc : a.cid = b.cid) :
    (iterEq a b = true ↔ a.i = b.i) ∧
    (iterLt a b = true ↔ a.i < b.i) ∧
    (iterGt a b = true ↔ b.i < a.i) ∧
    (iterLe a b = !iterGt a b) ∧
    (iterGe a b = !iterLt a b) ∧
    ((iterLt a b = true ∧ iterEq a b = false ∧ iterGt a b = false) ∨
     (iterEq a b = true ∧ iterLt a b = false ∧ iterGt a b = false) ∨
     (iterGt a b = true ∧ iterLt a b = false ∧ iterEq a b = false)) := by
  have he : iterEq a b = true ↔ a.i = b.i := by
    simp [iterEq, hc]
  have hl : iterLt a b = true ↔ a.i < b.i := by
    simp [iterLt, hc]
  have hg : iterGt a b = true ↔ b.i < a.i := by
    simp [iterGt, iterLt, iterEq, hc]
    omega
  have hfalse : ∀ x : Bool, x ≠ true → x = false := by decide
  refine ⟨he, hl, hg, rfl, rfl, ?_⟩
  rcases Nat.lt_trichotomy a.i b.i with h | h | h
  · exact Or.inl ⟨hl.mpr h,
      hfalse _ fun hcon => absurd (he.mp hcon) (by omega),
      hfalse _ fun hcon => absurd (hg.mp hcon) (by omega)⟩
  · exact Or.inr (Or.inl ⟨he.mpr h,
      hfalse _ fun hcon => absurd (hl.mp hcon) (by omega),
      hfalse _ fun hcon => absurd (hg.mp hcon) (by omega)⟩)
  · exact Or.inr (Or.inr ⟨hg.mpr h,
      hfalse _ fun hcon => absurd (hl.mp hcon) (by omega),
      hfalse _ fun hcon => absurd (he.mp hcon) (by omega)⟩)

/-- Witness for C8 at two concrete iterators over container 4. -/
theorem iter_order_spec_witness :
    iterLt (⟨4, 1⟩ : MayaArrayIter) ⟨4, 2⟩ = true ↔ (1 : Nat) < 2 :=
  (iter_order_spec ⟨4, 1⟩ ⟨4, 2⟩ rfl).2.1

/-- C3: MayaArray::at fails exactly when the position is at or past the
length (throwing the out-of-range error), otherwise returns the element at
that position; in both cases the array is unchanged by the call. -/
theorem mayaArray_at_spec {α : Type} (a : MayaArray α) (dflt : α) (pos : Nat) :
    ((a.atPos dflt pos).1.isOk = true ↔ pos < a.size) ∧
    (a.atPos dflt pos).1.toOption = a.mArray[pos]? ∧
    (a.atPos dflt pos).2 = a := by
  refine ⟨?_, ?_, rfl⟩
  · show (if hostLength a.mArray ≤ pos then (Except.error "MayaArray out of bounds" : Except String α)
      else Except.ok (hostGet a.mArray dflt pos)).isOk = true ↔ pos < a.size
    simp only [MayaArray.size, hostLength]
    split
    · rename_i hle
      rw [show (Except.error "MayaArray out of bounds" : Except String α).isOk = false
        from rfl]
      simp
      omega
    · rename_i hgt
      rw [show (Except.ok (hostGet a.mArray dflt pos) : Except String α).isOk = true
        from rfl]
      simp
      omega
  · show (if hostLength a.mArray ≤ pos then (Except.error "MayaArray out of bounds" : Except String α)
      else Except.ok (hostGet a.mArray dflt pos)).toOption = a.mArray[pos]?
    split
    · rename_i hle
      simp only [hostLength] at hle
      simp [Except.toOption, List.getElem?_eq_none hle]
    · rename_i hgt
      simp only [hostLength] at hgt
      push_neg at hgt
      simp [Except.toOption, hostGet, List.getD_eq_getElem?_getD,
        List.getElem?_eq_getElem hgt]

/-- Witness for C3 at a concrete array: position 5 of a length-2 array is
rejected. -/
theorem mayaArray_at_spec_witness :
    ((MayaArray.atPos (⟨0, [7, 8]⟩ : MayaArray Nat) 0 5).1.isOk = true ↔
      5 < (⟨0, [7, 8]⟩ : MayaArray Nat).size) :=
  (mayaArray_at_spec ⟨0, [7, 8]⟩ 0 5).1

/-- C9: the hash specialization returns exactly the host hash of the host
interned string, the equality specialization returns exactly the host
comparison, and if interning maps host-equal strings to one unique string
then equal strings receive equal hashes. -/
theorem mstring_hash_spec {σ υ : Type} (intern : σ → υ) (uhash : υ → Nat)
    (meq : σ → σ → Bool)
    (hintern : ∀ x y, meq x y = true → intern x = intern y) :
    (∀ v, hashMString intern uhash v = uhash (intern v)) ∧
    (∀ x y, equalToMString meq x y = meq x y) ∧
    (∀ x y, equalToMString meq x y = true →
      hashMString intern uhash x = hashMString intern uhash y) :=
  ⟨fun _ => rfl, fun _ _ => rfl,
   fun x y hxy => congrArg uhash (hintern x y hxy)⟩

/-- Witness for C9 with a concrete interning function (residue mod 5): the
equal strings 2 and 7 hash alike. -/
theorem mstring_hash_spec_witness :
    hashMString (fun n : Nat => n % 5) id 2 = hashMString (fun n : Nat => n % 5) id 7 :=
  (mstring_hash_spec (fun n : Nat => n % 5) id (fun x y => (x % 5) == (y % 5))
    (by
      intro x y hxy
      simpa using hxy)).2.2 2 7 (by decide)

/-- C10: evaluation of both assignment operators at a concrete input: the
contents are assigned to the underlying array, but no reference is returned,
because the operator bodies have no return statement. -/
theorem assign_no_return_eval :
    (MayaArray.assignFromHost (⟨0, [1]⟩ : MayaArray Nat) [2, 3]).1.mArray = [2, 3] ∧
    (MayaArray.assignFromHost (⟨0, [1]⟩ : MayaArray Nat) [2, 3]).2 = none ∧
    (MayaArray.assignFromMaya (⟨0, [1]⟩ : MayaArray Nat) ⟨1, [4]⟩).1.mArray = [4] ∧
    (MayaArray.assignFromMaya (⟨0, [1]⟩ : MayaArray Nat) ⟨1, [4]⟩).2 = none :=
  ⟨rfl, rfl, rfl, rfl⟩

/-- C4: insert(pos, n, v) at a valid position iterator at index `i` grows
the array by `n`, keeps the prefix below `i`, puts `n` copies of `v` at
`i .. i+n-1`, shifts the old elements at `i` and above up by `n`, and
returns an iterator at index `i`; the single-value insert is the `n = 1`
case. -/
theorem insert_count_spec {α : Type} (a : MayaArray α) (pos : MayaArrayIter)
    (n : Nat) (v : α) (h1 : pos.i ≤ a.size) (h2 : a.size < 4294967296)
    (h3 : 1 ≤ n) :
    (a.insertCnt pos n v).1.size = a.size + n ∧
    (∀ j : Nat, (a.insertCnt pos n v).1.mArray[j]? =
      if j < pos.i then a.mArray[j]?
      else if j < pos.i + n then some v
      else a.mArray[j - n]?) ∧
    (a.insertCnt pos n v).2 = ⟨a.cid, pos.i⟩ ∧
    a.insertOne pos v = a.insertCnt pos 1 v := by
  simp only [MayaArray.size, hostLength] at h1 h2 ⊢
  have hidx : idxOf pos a.beginIt = pos.i :=
    idxOf_eq pos a.beginIt rfl (by omega)
  refine ⟨?_, ?_, ?_, rfl⟩
  · show (insertLoop a.mArray v (idxOf pos a.beginIt) n).length = _
    rw [hidx, insertLoop_length v n a.mArray pos.i h1]
  · intro j
    show (insertLoop a.mArray v (idxOf pos a.beginIt) n)[j]? = _
    rw [hidx, insertLoop_getElem? v n a.mArray pos.i h1 j]
  · show (⟨a.cid, idxOf pos a.beginIt⟩ : MayaArrayIter) = _
    rw [hidx]

/-- Witness for C4: inserting 9 twice at index 1 of `[1, 2, 3]` gives a
5-element array. -/
theorem insert_count_spec_witness :
    (MayaArray.insertCnt (⟨0, [1, 2, 3]⟩ : MayaArray Nat) ⟨0, 1⟩ 2 9).1.size =
      (⟨0, [1, 2, 3]⟩ : MayaArray Nat).size + 2 :=
  (insert_count_spec ⟨0, [1, 2, 3]⟩ ⟨0, 1⟩ 2 9 (by decide) (by decide)
    (by decide)).1

/-- C5: erase(first, last) on a valid range at indices `i ≤ j ≤ size`
removes exactly `j - i` elements starting at `i`: the prefix below `i` is
kept, the elements from `j` on move down to start at `i`, the size drops by
`j - i`, the returned iterator is at index `i`, an empty range removes
nothing, and the single-position erase is the one-element case. -/
theorem erase_range_spec {α : Type} (a : MayaArray α) (first last : MayaArrayIter)
    (hc : first.cid = last.cid) (h1 : first.i ≤ last.i) (h2 : last.i ≤ a.size)
    (h3 : a.size < 4294967296) :
    (a.eraseRange first last).1.size = a.size - (last.i - first.i) ∧
    (∀ k : Nat, (a.eraseRange first last).1.mArray[k]? =
      if k < first.i then a.mArray[k]?
      else a.mArray[k + (last.i - first.i)]?) ∧
    (a.eraseRange first last).2 = ⟨a.cid, first.i⟩ ∧
    (first.i = last.i → (a.eraseRange first last).1 = a) ∧
    a.eraseOne first = a.eraseRange first ⟨first.cid, first.i + 1⟩ := by
  simp only [MayaArray.size, hostLength] at h2 h3 ⊢
  have hidx : idxOf first a.beginIt = first.i :=
    idxOf_eq first a.beginIt rfl (by omega)
  have hiter : eraseLoopIter a.mArray first.i first last (last.i - first.i) =
      eraseLoop a.mArray first.i (last.i - first.i) :=
    eraseLoopIter_eq_eraseLoop (last.i - first.i) a.mArray first.i first last
      hc (by omega) (by omega)
  have hle : first.i + (last.i - first.i) ≤ a.mArray.length := by omega
  refine ⟨?_, ?_, ?_, ?_, ?_⟩
  · show (eraseLoopIter a.mArray (idxOf first a.beginIt) first last
      (last.i - first.i)).length = _
    rw [hidx, hiter, eraseLoop_length (last.i - first.i) a.mArray first.i hle]
  · intro k
    show (eraseLoopIter a.mArray (idxOf first a.beginIt) first last
      (last.i - first.i))[k]? = _
    rw [hidx, hiter, eraseLoop_getElem? (last.i - first.i) a.mArray first.i hle k]
  · show (⟨a.cid, idxOf first a.beginIt⟩ : MayaArrayIter) = _
    rw [hidx]
  · intro heq
    show (⟨a.cid, eraseLoopIter a.mArray (idxOf first a.beginIt) first last
      (last.i - first.i)⟩ : MayaArray α) = a
    rw [show last.i - first.i = 0 from by omega]
    rfl
  · show ((⟨a.cid, hostRemove a.mArray (idxOf first a.beginIt)⟩,
      ⟨a.cid, idxOf first a.beginIt⟩) : MayaArray α × MayaArrayIter) =
      ((⟨a.cid, eraseLoopIter a.mArray (idxOf first a.beginIt) first
        ⟨first.cid, first.i + 1⟩
        ((⟨first.cid, first.i + 1⟩ : MayaArrayIter).i - first.i)⟩,
       ⟨a.cid, idxOf first a.beginIt⟩) : MayaArray α × MayaArrayIter)
    rw [show (⟨first.cid, first.i + 1⟩ : MayaArrayIter).i - first.i = 1
      from by simp]
    rw [show eraseLoopIter a.mArray (idxOf first a.beginIt) first
        ⟨first.cid, first.i + 1⟩ 1 =
        hostRemove a.mArray (idxOf first a.beginIt) from by
      simp [eraseLoopIter, iterNe, iterEq]]

/-- Witness for C5: erasing the range at indices 1 to 3 of `[1, 2, 3, 4]`
leaves a 2-element array. -/
theorem erase_range_spec_witness :
    (MayaArray.eraseRange (⟨0, [1, 2, 3, 4]⟩ : MayaArray Nat) ⟨0, 1⟩
      ⟨0, 3⟩).1.size = (⟨0, [1, 2, 3, 4]⟩ : MayaArray Nat).size - (3 - 1) :=
  (erase_range_spec ⟨0, [1, 2, 3, 4]⟩ ⟨0, 1⟩ ⟨0, 3⟩ rfl (by decide) (by decide)
    (by decide)).1

/-- C6: resize(count, v) makes the size `count`, keeps the elements below
`min(old size, count)`, fills any new slots with `v`, and leaves the array
untouched when `count` equals the old size; the one-argument resize sets the
size via the host `setLength(count)` and also keeps the surviving prefix. -/
theorem resize_spec {α : Type} (a : MayaArray α) (dflt v : α) (count : Nat) :
    (a.resizeFill dflt count v).size = count ∧
    (∀ j : Nat, (a.resizeFill dflt count v).mArray[j]? =
      if j < min a.size count then a.mArray[j]?
      else if j < count then some v else none) ∧
    (count = a.size → a.resizeFill dflt count v = a) ∧
    (a.resizeCnt dflt count).size = count ∧
    (∀ j : Nat, j < min a.size count →
      (a.resizeCnt dflt count).mArray[j]? = a.mArray[j]?) := by
  have hsz : a.size = a.mArray.length := rfl
  refine ⟨?_, ?_, ?_, ?_, ?_⟩
  · unfold MayaArray.resizeFill
    simp only [MayaArray.size, hostLength]
    split
    · exact hostSetLength_length a.mArray dflt count
    · split
      · rename_i hlt hgt
        show (fillLoop (hostSetLength a.mArray dflt count) v
          (a.mArray.length) (count - a.mArray.length)).length = count
        rw [fillLoop_length, hostSetLength_length]
      · omega
  · intro j
    unfold MayaArray.resizeFill
    simp only [MayaArray.size, hostLength]
    split
    · rename_i hlt
      rw [hostSetLength_getElem?]
      by_cases hj : j < count
      · rw [if_pos (by omega), if_pos (by omega)]
      · rw [if_neg (by omega), if_neg hj, if_neg (by omega), if_neg hj]
    · split
      · rename_i hlt hgt
        show (fillLoop (hostSetLength a.mArray dflt count) v
          (a.mArray.length) (count - a.mArray.length))[j]? = _
        rw [fillLoop_getElem? v (count - a.mArray.length)
          (hostSetLength a.mArray dflt count) a.mArray.length
          (by rw [hostSetLength_length]; omega) j]
        by_cases hj1 : j < a.mArray.length
        · rw [if_neg (by omega), if_pos (by omega), hostSetLength_getElem?,
            if_pos (by omega)]
        · by_cases hj2 : j < count
          · rw [if_pos (by omega), if_neg (by omega), if_pos hj2]
          · rw [if_neg (by omega), if_neg (by omega), if_neg hj2,
              hostSetLength_getElem?, if_neg (by omega), if_neg hj2]
      · rename_i hlt hgt
        have heq : count = a.mArray.length := by omega
        by_cases hj : j < a.mArray.length
        · rw [if_pos (by omega)]
        · rw [if_neg (by omega), if_neg (by omega)]
          exact List.getElem?_eq_none (by omega)
  · intro heq
    unfold MayaArray.resizeFill
    simp only [MayaArray.size, hostLength]
    rw [if_neg (by omega), if_neg (by omega)]
  · exact hostSetLength_length a.mArray dflt count
  · intro j hj
    simp only [MayaArray.size, hostLength] at hj
    show (hostSetLength a.mArray dflt count)[j]? = _
    rw [hostSetLength_getElem?, if_pos (by omega)]

/-- Witness for C6: growing `[1, 2]` to 4 elements with fill value 7. -/
theorem resize_spec_witness :
    (MayaArray.resizeFill (⟨0, [1, 2]⟩ : MayaArray Nat) 0 4 7).size = 4 :=
  (resize_spec ⟨0, [1, 2]⟩ 0 7 4).1
